import Mathlib

/-!
Verification of the incremental Intercom-to-Supabase synchronization engine.

This file is a shallow embedding of the sync engine source (the combined
backfill + live tail script).  JavaScript strings are `String`/`List Char`,
JS numbers holding unix timestamps are `Nat` (seconds) or `Int`
(milliseconds), JS `null`/`undefined`/falsy-empty values are `Option`/`""`
following each call site's truthiness test, and the effectful run functions
are embedded as explicit state-passing functions over a `SyncState` record
(the `sync_state` key/value table) and a `Store` (the `replies` table keyed
by `part_id`).  The remote HTTP surface is an environment of response
traces consumed by the embedded retry loop.
-/

/-- ASCII whitespace recognised by the JS `\s` class and `String.prototype.trim`
(restricted to the ASCII range, which is all the engine's patterns produce). -/
def isJsSpace (c : Char) : Bool :=
  c = ' ' || c = '\t' || c = '\n' || c = '\r' || c = '\x0b' || c = '\x0c'

/-- JS truthiness on a string: `s || null`. -/
def truthyStr (s : String) : Option String :=
  if s = "" then none else some s

/-- JS truthiness on an optional string field (`v ? ... : null`). -/
def truthyOptStr (o : Option String) : Option String :=
  match o with
  | some s => truthyStr s
  | none => none

/-- `s || null` as used when building row fields. -/
def strOpt (s : String) : Option String := truthyStr s

/-- Strip the literal `p` from the front of `l`, returning the rest. -/
def stripPre : List Char → List Char → Option (List Char)
  | [], l => some l
  | _ :: _, [] => none
  | p :: ps, c :: cs => if c = p then stripPre ps cs else none

theorem stripPre_length : ∀ (p l r : List Char), stripPre p l = some r → r.length ≤ l.length := by
  intro p
  induction p with
  | nil =>
    intro l r h
    simp only [stripPre, Option.some.injEq] at h
    simp [h]
  | cons a ps ih =>
    intro l r h
    cases l with
    | nil => simp [stripPre] at h
    | cons c cs =>
      simp only [stripPre] at h
      split at h
      · exact Nat.le_succ_of_le (ih cs r h)
      · exact absurd h (by simp)

theorem stripPre_length_lt : ∀ (p l r : List Char), p ≠ [] → stripPre p l = some r →
    r.length < l.length := by
  intro p l r hp h
  cases p with
  | nil => exact absurd rfl hp
  | cons a ps =>
    cases l with
    | nil => simp [stripPre] at h
    | cons c cs =>
      simp only [stripPre] at h
      split at h
      · exact Nat.lt_succ_of_le (stripPre_length ps cs r h)
      · exact absurd h (by simp)

/-- Generic global-replace scan: at each position try the matcher; on a match
emit `out` and resume after the matched text, otherwise keep the character.
This is the semantics of `String.prototype.replace` with a `g`-flagged
pattern whose replacement is a single character.  Structured with explicit
fuel so that it reduces in the kernel; every matcher used consumes at least
one character, so fuel `l.length` never runs out (`scanReplaceF_fuel`). -/
def scanReplaceF (m : List Char → Option (List Char)) (out : Char) :
    Nat → List Char → List Char
  | _, [] => []
  | 0, l => l
  | fuel + 1, c :: cs =>
    match m (c :: cs) with
    | some rest => out :: scanReplaceF m out fuel rest
    | none => c :: scanReplaceF m out fuel cs

def scanReplace (m : List Char → Option (List Char)) (out : Char) (l : List Char) :
    List Char :=
  scanReplaceF m out l.length l

/-- For a matcher that always consumes at least one character, any fuel of at
least the input length computes the same result, so `scanReplace` is the
honest fixpoint of the scan. -/
theorem scanReplaceF_fuel (m : List Char → Option (List Char))
    (hm : ∀ l r, m l = some r → r.length < l.length) (out : Char) :
    ∀ fuel l, l.length ≤ fuel → scanReplaceF m out fuel l = scanReplace m out l := by
  intro fuel
  induction fuel using Nat.strong_induction_on with
  | _ fuel ih =>
    intro l hl
    cases l with
    | nil => rw [scanReplace]; cases fuel <;> rfl
    | cons c cs =>
      cases fuel with
      | zero => simp at hl
      | succ fuel =>
        have hcs : cs.length ≤ fuel := by simpa using hl
        rw [scanReplace]
        cases hmm : m (c :: cs) with
        | some rest =>
          have hr : rest.length < cs.length + 1 := by
            simpa using hm _ _ hmm
          simp only [scanReplaceF, List.length_cons, hmm]
          have h1 : scanReplaceF m out fuel rest = scanReplace m out rest :=
            ih fuel (Nat.lt_succ_self fuel) rest (by omega)
          have h2 : scanReplaceF m out cs.length rest = scanReplace m out rest :=
            ih cs.length (by omega) rest (by omega)
          rw [h1, h2]
        | none =>
          simp only [scanReplaceF, List.length_cons, hmm]
          have h1 : scanReplaceF m out fuel cs = scanReplace m out cs :=
            ih fuel (Nat.lt_succ_self fuel) cs hcs
          have h2 : scanReplaceF m out cs.length cs = scanReplace m out cs :=
            ih cs.length (by omega) cs (Nat.le_refl _)
          rw [h1, h2]

/-- Matcher for `/<br\s*\/?>/gi`. -/
def matchBrTag : List Char → Option (List Char)
  | c0 :: c1 :: c2 :: rest =>
    if c0 = '<' ∧ (c1 = 'b' ∨ c1 = 'B') ∧ (c2 = 'r' ∨ c2 = 'R') then
      match rest.dropWhile isJsSpace with
      | '/' :: '>' :: r => some r
      | '>' :: r => some r
      | _ => none
    else none
  | _ => none

theorem matchBrTag_length : ∀ l r, matchBrTag l = some r → r.length < l.length := by
  intro l r h
  unfold matchBrTag at h
  split at h
  · rename_i c0 c1 c2 rest
    split at h
    · have hd : (rest.dropWhile isJsSpace).length ≤ rest.length :=
        (List.dropWhile_sublist isJsSpace).length_le
      split at h
      · rename_i heq
        have : r.length + 2 ≤ rest.length := by
          rw [Option.some.injEq] at h
          subst h
          rw [heq] at hd
          simpa using hd
        simp only [List.length_cons]
        omega
      · rename_i heq
        have : r.length + 1 ≤ rest.length := by
          rw [Option.some.injEq] at h
          subst h
          rw [heq] at hd
          simpa using hd
        simp only [List.length_cons]
        omega
      · exact absurd h (by simp)
    · exact absurd h (by simp)
  · exact absurd h (by simp)

/-- Matcher for `/<\/p>/gi`. -/
def matchPClose : List Char → Option (List Char)
  | c0 :: c1 :: c2 :: c3 :: r =>
    if c0 = '<' ∧ c1 = '/' ∧ (c2 = 'p' ∨ c2 = 'P') ∧ c3 = '>' then some r else none
  | _ => none

theorem matchPClose_length : ∀ l r, matchPClose l = some r → r.length < l.length := by
  intro l r h
  unfold matchPClose at h
  split at h
  · split at h
    · rw [Option.some.injEq] at h
      subst h
      simp only [List.length_cons]
      omega
    · exact absurd h (by simp)
  · exact absurd h (by simp)

/-- Matcher for `/<[^>]*>/g`. -/
def matchAnyTag : List Char → Option (List Char)
  | c0 :: rest =>
    if c0 = '<' then
      match rest.dropWhile (fun c => !(c = '>')) with
      | _ :: r => some r
      | [] => none
    else none
  | [] => none

theorem matchAnyTag_length : ∀ l r, matchAnyTag l = some r → r.length < l.length := by
  intro l r h
  unfold matchAnyTag at h
  split at h
  · rename_i c0 rest
    split at h
    · have hd : (rest.dropWhile fun c => !(c = '>')).length ≤ rest.length :=
        (List.dropWhile_sublist _).length_le
      split at h
      · rename_i heq
        have : r.length + 1 ≤ rest.length := by
          rw [Option.some.injEq] at h
          subst h
          rw [heq] at hd
          simpa using hd
        simp only [List.length_cons]
        omega
      · exact absurd h (by simp)
    · exact absurd h (by simp)
  · exact absurd h (by simp)

/-- One entity-decoding pass: replace every occurrence of the literal `pat`
by the single character `rep`. -/
def replaceEntity (pat : List Char) (rep : Char) : List Char → List Char :=
  scanReplace (stripPre pat) rep

/-- Matcher for `/[ \t]+/g` (run of spaces and tabs). -/
def matchSpTab : List Char → Option (List Char)
  | c :: cs =>
    if c = ' ' ∨ c = '\t' then some (cs.dropWhile fun d => d = ' ' || d = '\t') else none
  | [] => none

theorem matchSpTab_length : ∀ l r, matchSpTab l = some r → r.length < l.length := by
  intro l r h
  unfold matchSpTab at h
  split at h
  · rename_i c cs
    split at h
    · rw [Option.some.injEq] at h
      subst h
      have : (cs.dropWhile fun d => d = ' ' || d = '\t').length ≤ cs.length :=
        (List.dropWhile_sublist _).length_le
      simp only [List.length_cons]
      omega
    · exact absurd h (by simp)
  · exact absurd h (by simp)

/-- Matcher for `/\n\s+/g` (newline followed by at least one whitespace). -/
def matchNlWs : List Char → Option (List Char)
  | c :: d :: r =>
    if c = '\n' ∧ isJsSpace d then some ((d :: r).dropWhile isJsSpace) else none
  | _ => none

theorem matchNlWs_length : ∀ l r, matchNlWs l = some r → r.length < l.length := by
  intro l r h
  unfold matchNlWs at h
  split at h
  · rename_i c d rest
    split at h
    · rw [Option.some.injEq] at h
      subst h
      have : ((d :: rest).dropWhile isJsSpace).length ≤ (d :: rest).length :=
        (List.dropWhile_sublist _).length_le
      simp only [List.length_cons] at this ⊢
      omega
    · exact absurd h (by simp)
  · exact absurd h (by simp)

/-- JS `String.prototype.trim` on a char list. -/
def jsTrimL (l : List Char) : List Char :=
  ((l.dropWhile isJsSpace).reverse.dropWhile isJsSpace).reverse

/-- JS `String.prototype.trim`. -/
def jsTrimStr (s : String) : String := String.mk (jsTrimL s.data)

/-- The six chained entity replaces, in source order. -/
def decodeEntities (l : List Char) : List Char :=
  replaceEntity "&quot;".data '"'
    (replaceEntity "&#39;".data '\''
      (replaceEntity "&gt;".data '>'
        (replaceEntity "&lt;".data '<'
          (replaceEntity "&amp;".data '&'
            (replaceEntity "&nbsp;".data ' ' l)))))

/-- The whole `htmlToText` pipeline on a char list (for nonempty input). -/
def htmlToTextL (l : List Char) : List Char :=
  jsTrimL
    (scanReplace matchNlWs '\n'
      (scanReplace matchSpTab ' '
        (decodeEntities
          (scanReplace matchAnyTag ' '
            (scanReplace matchPClose '\n'
              (scanReplace matchBrTag '\n' l))))))

/-- `htmlToText(html)` from the source: `if (!html) return ""` then the fixed
replace pipeline ending in `.trim()`. -/
def htmlToText (html : String) : String :=
  if html = "" then "" else String.mk (htmlToTextL html.data)

/-- Zero-pad to two digits. -/
def pad2 (n : Nat) : String := if n < 10 then "0" ++ toString n else toString n

/-- `new Date(secs * 1000).toISOString()` for a non-negative integral unix
second count (the only values the engine feeds it); standard proleptic
Gregorian civil-from-days conversion. -/
def isoOfUnixSeconds (secs : Nat) : String :=
  let days := secs / 86400
  let rem := secs % 86400
  let hh := rem / 3600
  let mins := rem % 3600 / 60
  let ss := rem % 60
  let z := days + 719468
  let era := z / 146097
  let doe := z % 146097
  let yoe := ((doe - doe / 1460) + doe / 36524 - doe / 146096) / 365
  let y0 := yoe + era * 400
  let doy := doe - (365 * yoe + yoe / 4 - yoe / 100)
  let mp := (5 * doy + 2) / 153
  let d := doy - (153 * mp + 2) / 5 + 1
  let m := if mp < 10 then mp + 3 else mp - 9
  let y := if m ≤ 2 then y0 + 1 else y0
  toString y ++ "-" ++ pad2 m ++ "-" ++ pad2 d ++ "T" ++
    pad2 hh ++ ":" ++ pad2 mins ++ ":" ++ pad2 ss ++ ".000Z"

theorem isoOfUnixSeconds_epoch : isoOfUnixSeconds 0 = "1970-01-01T00:00:00.000Z" := by
  decide

theorem isoOfUnixSeconds_hundred : isoOfUnixSeconds 100 = "1970-01-01T00:01:40.000Z" := by
  decide

theorem htmlToText_p_tag : htmlToText "<p>Hi</p>" = "Hi" := by decide

theorem htmlToText_mixed : htmlToText "a &amp;  b<br/>c" = "a & b\nc" := by decide

/-! ## Conversation data model -/

/-- An upstream message object (a conversation `source` or a conversation
part), with exactly the fields the engine reads.  `none` stands for a
missing/null JSON field; a present-but-falsy value is normalized at each
use site exactly as the source's truthiness tests do. -/
structure MsgObj where
  id : Option String := none
  created_at : Option Nat := none
  authorType : Option String := none
  authorId : Option String := none
  authorName : Option String := none
  body : Option String := none
deriving DecidableEq, Repr

/-- A normalized message, the result of `normalizeMessage`. -/
structure Msg where
  part_id : Option String
  created_at : Option Nat
  created_at_iso : String
  author_type : String
  author_id : String
  author_name : String
  body_text : String
deriving DecidableEq, Repr

/-- ASCII lower-casing, the behaviour of JS `toLowerCase()` on the ASCII
role strings the engine compares. -/
def jsCharLower (c : Char) : Char :=
  if 'A' ≤ c ∧ c ≤ 'Z' then Char.ofNat (c.toNat + 32) else c

def jsToLower (s : String) : String := String.mk (s.data.map jsCharLower)

/-- `normalizeMessage(obj)` from the source. -/
def normalizeMessage (obj : MsgObj) : Msg :=
  let createdAt : Option Nat :=
    match obj.created_at with
    | some n => if n = 0 then none else some n
    | none => none
  let createdIso : String :=
    match createdAt with
    | some n => isoOfUnixSeconds n
    | none => ""
  let authorTypeRaw := jsToLower (obj.authorType.getD "")
  let authorType := if authorTypeRaw = "admin" then "admin" else "user"
  { part_id := truthyOptStr obj.id
    created_at := createdAt
    created_at_iso := createdIso
    author_type := authorType
    author_id := obj.authorId.getD ""
    author_name := obj.authorName.getD ""
    body_text := htmlToText (obj.body.getD "") }

/-- The sort key `(a.created_at || 0)` of the comparator in
`buildOrderedMessages`. -/
def msgKey (m : Msg) : Nat := m.created_at.getD 0

/-- The order induced by the comparator
`(a, b) => (a.created_at || 0) - (b.created_at || 0)`. -/
def msgLE (a b : Msg) : Prop := msgKey a ≤ msgKey b

instance : DecidableRel msgLE := fun a b => Nat.decLe (msgKey a) (msgKey b)

instance : IsTotal Msg msgLE := ⟨fun a b => Nat.le_total (msgKey a) (msgKey b)⟩

instance : IsTrans Msg msgLE := ⟨fun _ _ _ => Nat.le_trans⟩

/-- A conversation's tag container: either `{tags: [...]}`, a plain array, or
absent — the three shapes `extractTags` distinguishes. -/
structure ConvTag where
  name : Option String := none
deriving DecidableEq, Repr

inductive TagsField where
  | absent
  | tagsObj (tags : List ConvTag)
  | tagsArr (tags : List ConvTag)
deriving DecidableEq, Repr

/-- A full conversation object as read by the engine: the `source` message,
the `conversation_parts.conversation_parts` array, tag and assignee
metadata. -/
structure Conversation where
  source : Option MsgObj := none
  parts : List MsgObj := []
  tags : TagsField := .absent
  assigneeId : Option String := none
  adminAssigneeId : Option String := none
deriving DecidableEq, Repr

/-- The messages in upstream emission order (source first, then the parts),
before sorting — the `out` array of `buildOrderedMessages` prior to
`out.sort`. -/
def rawMessages (conv : Conversation) : List Msg :=
  (match conv.source with
   | some s => [normalizeMessage s]
   | none => []) ++ conv.parts.map normalizeMessage

/-- `buildOrderedMessages(conversation)`: push the source, push the parts,
then sort by `(created_at || 0)` ascending.  JS `Array.prototype.sort` is
stable (ES2019), embedded as a stable insertion sort. -/
def buildOrderedMessages (conv : Conversation) : List Msg :=
  List.insertionSort msgLE (rawMessages conv)

/-- `tagsArray.map(t => t.name).filter(Boolean).join(", ")`. -/
def joinTagNames (ts : List ConvTag) : String :=
  String.intercalate ", " ((ts.map fun t => t.name.getD "").filter fun s => s ≠ "")

/-- `extractTags(conversation)` from the source. -/
def extractTags (conv : Conversation) : String :=
  match conv.tags with
  | .tagsObj ts => joinTagNames ts
  | .tagsArr ts => joinTagNames ts
  | .absent => ""

/-- `extractAssigneeId(conversation)` from the source. -/
def extractAssigneeId (conv : Conversation) : String :=
  match truthyOptStr conv.assigneeId with
  | some s => s
  | none =>
    match truthyOptStr conv.adminAssigneeId with
    | some s => s
    | none => ""

/-- The backward scan of `findPreviousUserMessage`, from index `j - 1`
down to `0`. -/
def findPrevAux (messages : List Msg) : Nat → String
  | 0 => ""
  | j + 1 =>
    match messages[j]? with
    | some m =>
      if m.author_type = "user" ∧ jsTrimStr m.body_text ≠ "" then m.body_text
      else findPrevAux messages j
    | none => findPrevAux messages j

/-- `findPreviousUserMessage(messages, idx)` from the source. -/
def findPreviousUserMessage (messages : List Msg) (idx : Nat) : String :=
  findPrevAux messages idx

/-! ## Reply records and the `replies` store -/

/-- The row shape pushed to the `replies` table. -/
structure Row where
  pulled_at : String
  conversation_id : String
  part_id : String
  reply_created_at : Option String
  teammate_id : Option String
  teammate_name : Option String
  tags : Option String
  assignee_id : Option String
  user_prev_message : Option String
  agent_reply : Option String
deriving DecidableEq, Repr

/-- The synthetic natural key used when an operator message carries no
upstream id: `source_admin_<convoId>_<createdAt-or-index>`. -/
def syntheticId (convoId : String) (m : Msg) (i : Nat) : String :=
  "source_admin_" ++ convoId ++ "_" ++
    (match m.created_at with
     | some n => toString n
     | none => toString i)

/-- One pushed row, for message `m` at index `i` of the ordered list. -/
def mkRow (now convoId tags assigneeId : String) (all : List Msg) (i : Nat) (m : Msg) : Row :=
  { pulled_at := now
    conversation_id := convoId
    part_id :=
      match m.part_id with
      | some s => s
      | none => syntheticId convoId m i
    reply_created_at := strOpt m.created_at_iso
    teammate_id := strOpt m.author_id
    teammate_name := strOpt m.author_name
    tags := strOpt tags
    assignee_id := strOpt assigneeId
    user_prev_message := strOpt (findPreviousUserMessage all i)
    agent_reply := strOpt m.body_text }

/-- The per-conversation message loop shared verbatim by the Backfill and
Live extraction loops: keep operator messages with a non-empty trimmed body
and build one row each. -/
def replyRows (now convoId tags assigneeId : String) (all : List Msg) :
    Nat → List Msg → List Row
  | _, [] => []
  | i, m :: rest =>
    if m.author_type = "admin" ∧ jsTrimStr m.body_text ≠ "" then
      mkRow now convoId tags assigneeId all i m ::
        replyRows now convoId tags assigneeId all (i + 1) rest
    else replyRows now convoId tags assigneeId all (i + 1) rest

/-- All rows the engine pushes for one fetched conversation (both loops):
compute tags and assignee, order the messages, then run the message loop.
`now` is the wall-clock ISO timestamp observed by `new Date()` during the
run, an explicit input of the embedding. -/
def rowsForConversation (now convoId : String) (conv : Conversation) : List Row :=
  let msgs := buildOrderedMessages conv
  replyRows now convoId (extractTags conv) (extractAssigneeId conv) msgs 0 msgs

/-- The `replies` table, keyed by the `part_id` natural key (unique index). -/
def Store : Type := String → Option Row

def emptyStore : Store := fun _ => none

/-- Insert-or-overwrite one row by its `part_id` (`upsert` with
`onConflict: "part_id"`). -/
def upsertRow (st : Store) (r : Row) : Store :=
  fun k => if k = r.part_id then some r else st k

/-- Upsert a batch of rows. -/
def upsertAll (st : Store) (rows : List Row) : Store :=
  rows.foldl upsertRow st

/-! ## Remote client: retry loop -/

/-- One HTTP response as the engine observes it: the status code and the
result of `JSON.parse` on the body (`none` when parsing fails). -/
structure HttpResp (α : Type) where
  status : Nat
  parsed : Option α := none
deriving DecidableEq, Repr

/-- The retryable classification `code === 429 || (code >= 500 && code <= 599)`. -/
def retryableStatus (code : Nat) : Bool :=
  code == 429 || (500 ≤ code && code ≤ 599)

/-- The success classification `code >= 200 && code < 300`. -/
def okStatus (code : Nat) : Bool :=
  200 ≤ code && code < 300

def MAX_ATTEMPTS : Nat := 6

/-- The attempt loop of `intercomRequest`: consume one response per attempt;
2xx returns the parsed body, 429/5xx backs off and retries, any other
status returns null; exhausting the attempt budget also returns null. -/
def intercomRequestGo {α : Type} : Nat → List (HttpResp α) → Option α
  | 0, _ => none
  | _ + 1, [] => none
  | n + 1, r :: rest =>
    if okStatus r.status then r.parsed
    else if retryableStatus r.status then intercomRequestGo n rest
    else none

/-- `intercomRequest` from the source, as a function of the successive HTTP
responses the upstream returns for this call.  It is total: every outcome
is `some` parsed payload or `none` (a non-fatal miss); it never throws. -/
def intercomRequest {α : Type} (responses : List (HttpResp α)) : Option α :=
  intercomRequestGo MAX_ATTEMPTS responses

/-! ## Sync state machine -/

/-- A conversation summary on a search page (the engine only reads `id`). -/
structure ConvSummary where
  id : Option String := none
deriving DecidableEq, Repr

/-- One parsed search response: `conversations` plus
`pages.next.starting_after` (already flattened to an optional token). -/
structure SearchPage where
  conversations : List ConvSummary := []
  nextCursor : Option String := none
deriving DecidableEq, Repr

/-- The persisted `sync_state` rows, one field per key.  Timestamp-valued
keys hold canonical ISO strings written by the engine itself; since
`new Date(iso).toISOString()` round-trips at millisecond precision they are
embedded as epoch milliseconds, with `none` for the empty/missing value.
Cursor keys are the opaque strings, `""` when cleared. -/
structure SyncState where
  bfStart : Option Int := none
  bfEnd : Option Int := none
  bfCursor : String := ""
  bfDone : String := ""
  liveLastRun : Option Int := none
  liveCursor : String := ""
deriving DecidableEq, Repr

/-- `String(v).toLowerCase() === "true"`. -/
def isTrueStr (s : String) : Bool := jsToLower s == "true"

/-- The upstream world for one process invocation: the successive responses
to the backfill search calls, the live search calls, the per-conversation
detail calls, and the sink's verdict on each upsert batch (`none` =
success, `some e` = the thrown error message). -/
structure ApiEnv where
  bfSearchTraces : List (List (HttpResp SearchPage)) := []
  liveSearchTraces : List (List (HttpResp SearchPage)) := []
  detailTraces : String → List (HttpResp Conversation) := fun _ => []
  sinkErr : List Row → Option String := fun _ => none

/-- `getConversation` via the retry loop. -/
def mkDetail (env : ApiEnv) : String → Option Conversation :=
  fun convoId => intercomRequest (env.detailTraces convoId)

/-- Outcome of a run: normal return value, or a thrown error that
propagates to `main().catch`. -/
inductive Outcome (α : Type) where
  | ok (value : α)
  | fail (msg : String)
deriving DecidableEq, Repr

structure RunResult where
  done : Bool
  pages : Nat := 0
  processed : Nat := 0
  totalRows : Nat := 0
deriving DecidableEq, Repr

def SEARCH_PER_PAGE : Nat := 50
def MAX_CONVERSATIONS_PER_RUN : Nat := 60
def MAX_ROWS_INSERT_PER_RUN : Nat := 1500
def LIVE_LOOKBACK_MINUTES : Nat := 30
def LIVE_SEARCH_PER_PAGE : Nat := 50
def LIVE_MAX_CONVERSATIONS_PER_RUN : Nat := 500

/-- `Math.floor(ms / 1000)`. -/
def unixOfMs (ms : Int) : Int := ms.fdiv 1000

/-- `initBackfillSundayToNowIfNeeded`: if either window bound is missing,
(re)initialize all four backfill keys.  The most-recent-Sunday-midnight
computation is wall-clock and timezone dependent, so the computed window
start arrives as the explicit input `sundayStartMs`. -/
def initBackfillIfNeeded (sundayStartMs nowMs : Int) (st : SyncState) : SyncState :=
  match st.bfStart, st.bfEnd with
  | some _, some _ => st
  | _, _ =>
    { st with bfStart := some sundayStartMs, bfEnd := some nowMs,
              bfCursor := "", bfDone := "false" }

/-- The per-page conversation loop of `runBackfillOnce` (lines guarded by
the per-run conversation cap and the per-run row cap): skip summaries
without an id, skip conversations whose detail fetch misses, and extend
the page batch with the extracted rows otherwise. -/
def bfProcessConvos (detail : String → Option Conversation) (now : String) :
    List ConvSummary → Nat → Nat → List Row → Nat × List Row
  | [], processed, _, rows => (processed, rows)
  | c :: cs, processed, totalRows, rows =>
    if MAX_CONVERSATIONS_PER_RUN ≤ processed then (processed, rows)
    else if MAX_ROWS_INSERT_PER_RUN ≤ totalRows + rows.length then (processed, rows)
    else
      match truthyOptStr c.id with
      | none => bfProcessConvos detail now cs processed totalRows rows
      | some convoId =>
        match detail convoId with
        | none => bfProcessConvos detail now cs processed totalRows rows
        | some full =>
          bfProcessConvos detail now cs (processed + 1) totalRows
            (rows ++ rowsForConversation now convoId full)

/-- The backfill pagination loop, consuming one search response per
iteration.  On an empty page: persist `bf_done = "true"`, clear the cursor
and return done.  Otherwise process the page, upsert the batch (a sink
error propagates, leaving the state exactly as at the iteration's start,
the cursor not yet advanced), then persist the next cursor; a null next
cursor also completes the backfill. -/
def runBackfillPages (detail : String → Option Conversation)
    (sinkErr : List Row → Option String) (now : String) :
    List (Option SearchPage) → Option String → Nat → Nat → Nat →
    SyncState → Store → SyncState × Store × Outcome RunResult
  | [], _, processed, totalRows, pages, st, store =>
    (st, store, .ok ⟨false, pages, processed, totalRows⟩)
  | optPage :: rest, _cursor, processed, totalRows, pages, st, store =>
    if processed < MAX_CONVERSATIONS_PER_RUN ∧ totalRows < MAX_ROWS_INSERT_PER_RUN then
      let convos :=
        match optPage with
        | some p => p.conversations
        | none => []
      let nextStartingAfter :=
        match optPage with
        | some p => truthyOptStr p.nextCursor
        | none => none
      if convos.isEmpty then
        ({ st with bfDone := "true", bfCursor := "" }, store,
          .ok ⟨true, pages, processed, totalRows⟩)
      else
        let pr := bfProcessConvos detail now convos processed totalRows []
        match (if pr.2.isEmpty then none else sinkErr pr.2) with
        | some e => (st, store, .fail e)
        | none =>
          let store2 := if pr.2.isEmpty then store else upsertAll store pr.2
          let totalRows2 := if pr.2.isEmpty then totalRows else totalRows + pr.2.length
          let st2 := { st with bfCursor := nextStartingAfter.getD "" }
          match nextStartingAfter with
          | none =>
            ({ st2 with bfDone := "true", bfCursor := "" }, store2,
              .ok ⟨true, pages + 1, pr.1, totalRows2⟩)
          | some _ =>
            runBackfillPages detail sinkErr now rest nextStartingAfter pr.1 totalRows2
              (pages + 1) st2 store2
    else (st, store, .ok ⟨false, pages, processed, totalRows⟩)

/-- `runBackfillOnce`: initialize the window if needed, return immediately
when the completion flag is set, otherwise run the pagination loop from
the persisted cursor. -/
def runBackfillOnce (env : ApiEnv) (sundayStartMs nowMs : Int) (now : String)
    (st0 : SyncState) (store : Store) : SyncState × Store × Outcome RunResult :=
  let st := initBackfillIfNeeded sundayStartMs nowMs st0
  if isTrueStr st.bfDone then (st, store, .ok ⟨true, 0, 0, 0⟩)
  else
    match st.bfStart, st.bfEnd with
    | some _, some _ =>
      runBackfillPages (mkDetail env) env.sinkErr now
        (env.bfSearchTraces.map intercomRequest) (truthyStr st.bfCursor) 0 0 0 st store
    | _, _ => (st, store, .fail "Backfill state missing start/end ISO.")

/-- `autoSwitchToLiveIfBackfillDone`: once the backfill completion flag is
set and live is not yet initialized, seed `live_last_run` with the backfill
window's end (falling back to now) and clear the live cursor. -/
def autoSwitchToLiveIfBackfillDone (nowMs : Int) (st : SyncState) : SyncState :=
  if isTrueStr st.bfDone then
    match st.liveLastRun with
    | some _ => st
    | none =>
      let liveStart :=
        match st.bfEnd with
        | some e => e
        | none => nowMs
      { st with liveLastRun := some liveStart, liveCursor := "" }
  else st

/-- The observed live search-window start:
`new Date(lastRun.getTime() - LIVE_LOOKBACK_MINUTES*60*1000)` in unix
seconds. -/
def liveStartUnix (lastRunMs : Int) : Int :=
  unixOfMs (lastRunMs - (LIVE_LOOKBACK_MINUTES : Int) * 60 * 1000)

structure LiveResult where
  ran : Bool
  startUnix : Int := 0
  endUnix : Int := 0
  pages : Nat := 0
  processed : Nat := 0
  totalRows : Nat := 0
deriving DecidableEq, Repr

/-- The per-page conversation loop of `runLiveOnce` (no per-run row cap). -/
def liveProcessConvos (detail : String → Option Conversation) (now : String) :
    List ConvSummary → Nat → List Row → Nat × List Row
  | [], processed, rows => (processed, rows)
  | c :: cs, processed, rows =>
    if LIVE_MAX_CONVERSATIONS_PER_RUN ≤ processed then (processed, rows)
    else
      match truthyOptStr c.id with
      | none => liveProcessConvos detail now cs processed rows
      | some convoId =>
        match detail convoId with
        | none => liveProcessConvos detail now cs processed rows
        | some full =>
          liveProcessConvos detail now cs (processed + 1)
            (rows ++ rowsForConversation now convoId full)

/-- The live pagination loop.  On an empty page or an exhausted cursor the
run advances `live_last_run` to the window end (`nowMs`) and clears the
cursor. -/
def runLivePages (detail : String → Option Conversation)
    (sinkErr : List Row → Option String) (now : String)
    (startUnix endUnix nowMs : Int) :
    List (Option SearchPage) → Option String → Nat → Nat → Nat →
    SyncState → Store → SyncState × Store × Outcome LiveResult
  | [], _, processed, totalRows, pages, st, store =>
    (st, store, .ok ⟨true, startUnix, endUnix, pages, processed, totalRows⟩)
  | optPage :: rest, _cursor, processed, totalRows, pages, st, store =>
    if processed < LIVE_MAX_CONVERSATIONS_PER_RUN then
      let convos :=
        match optPage with
        | some p => p.conversations
        | none => []
      let nextStartingAfter :=
        match optPage with
        | some p => truthyOptStr p.nextCursor
        | none => none
      if convos.isEmpty then
        ({ st with liveLastRun := some nowMs, liveCursor := "" }, store,
          .ok ⟨true, startUnix, endUnix, pages, processed, totalRows⟩)
      else
        let pr := liveProcessConvos detail now convos processed []
        match (if pr.2.isEmpty then none else sinkErr pr.2) with
        | some e => (st, store, .fail e)
        | none =>
          let store2 := if pr.2.isEmpty then store else upsertAll store pr.2
          let totalRows2 := if pr.2.isEmpty then totalRows else totalRows + pr.2.length
          let st2 := { st with liveCursor := nextStartingAfter.getD "" }
          match nextStartingAfter with
          | none =>
            ({ st2 with liveLastRun := some nowMs, liveCursor := "" }, store2,
              .ok ⟨true, startUnix, endUnix, pages + 1, pr.1, totalRows2⟩)
          | some _ =>
            runLivePages detail sinkErr now startUnix endUnix nowMs rest
              nextStartingAfter pr.1 totalRows2 (pages + 1) st2 store2
    else (st, store, .ok ⟨true, startUnix, endUnix, pages, processed, totalRows⟩)

/-- `runLiveOnce`: a no-op until `live_last_run` is set; otherwise compute
the lookback window `[lastRun - 30min, now]` and run the pagination
loop. -/
def runLiveOnce (env : ApiEnv) (nowMs : Int) (now : String)
    (st : SyncState) (store : Store) : SyncState × Store × Outcome LiveResult :=
  match st.liveLastRun with
  | none => (st, store, .ok ⟨false, 0, 0, 0, 0, 0⟩)
  | some lastRunMs =>
    runLivePages (mkDetail env) env.sinkErr now (liveStartUnix lastRunMs)
      (unixOfMs nowMs) nowMs (env.liveSearchTraces.map intercomRequest)
      (truthyStr st.liveCursor) 0 0 0 st store

/-- `main()`: one backfill pass, then the auto-switch, then one live pass;
any thrown error short-circuits to the `catch` handler. -/
def mainRun (env : ApiEnv) (sundayStartMs bfNowMs liveNowMs : Int) (now : String)
    (st : SyncState) (store : Store) :
    SyncState × Store × Outcome (RunResult × LiveResult) :=
  match runBackfillOnce env sundayStartMs bfNowMs now st store with
  | (st1, store1, .fail e) => (st1, store1, .fail e)
  | (st1, store1, .ok bf) =>
    let st2 := autoSwitchToLiveIfBackfillDone liveNowMs st1
    match runLiveOnce env liveNowMs now st2 store1 with
    | (st3, store3, .fail e) => (st3, store3, .fail e)
    | (st3, store3, .ok lv) => (st3, store3, .ok (bf, lv))

/-- `main().catch(e => process.exit(1))`: exit code 0 on normal completion,
1 when an error propagates. -/
def mainExitCode (env : ApiEnv) (sundayStartMs bfNowMs liveNowMs : Int) (now : String)
    (st : SyncState) (store : Store) : Nat :=
  match (mainRun env sundayStartMs bfNowMs liveNowMs now st store).2.2 with
  | .ok _ => 0
  | .fail _ => 1

/-! ## General lemmas -/

theorem dropWhile_dropWhile (p : Char → Bool) (l : List Char) :
    (l.dropWhile p).dropWhile p = l.dropWhile p := by
  induction l with
  | nil => rfl
  | cons a t ih =>
    by_cases hp : p a
    · rw [List.dropWhile_cons_of_pos hp]
      exact ih
    · rw [List.dropWhile_cons_of_neg hp, List.dropWhile_cons_of_neg hp]

theorem head_false_of_dropWhile_eq {p : Char → Bool} {a : Char} {t : List Char}
    (h : (a :: t).dropWhile p = a :: t) : p a = false := by
  by_cases hp : p a
  · exfalso
    rw [List.dropWhile_cons_of_pos hp] at h
    have h1 := congrArg List.length h
    have h2 : (t.dropWhile p).length ≤ t.length := (List.dropWhile_sublist p).length_le
    simp only [List.length_cons] at h1
    omega
  · simpa using hp

theorem dropWhile_eq_self_of_prefix {p : Char → Bool} {A B : List Char}
    (hBA : B <+: A) (hA : A.dropWhile p = A) : B.dropWhile p = B := by
  cases B with
  | nil => rfl
  | cons b B2 =>
    obtain ⟨t, ht⟩ := hBA
    subst ht
    have hb : p b = false := head_false_of_dropWhile_eq (t := B2 ++ t) hA
    exact List.dropWhile_cons_of_neg (by simp [hb])

/-- JS `trim` is idempotent, so the pipeline's output is already trimmed. -/
theorem jsTrimL_idem (l : List Char) : jsTrimL (jsTrimL l) = jsTrimL l := by
  unfold jsTrimL
  have hAdrop : ((l.dropWhile isJsSpace).dropWhile isJsSpace) = l.dropWhile isJsSpace :=
    dropWhile_dropWhile _ _
  have hsuf : ((l.dropWhile isJsSpace).reverse.dropWhile isJsSpace) <:+
      (l.dropWhile isJsSpace).reverse := List.dropWhile_suffix _
  have hpre : ((l.dropWhile isJsSpace).reverse.dropWhile isJsSpace).reverse <+:
      l.dropWhile isJsSpace := by
    have h1 := List.reverse_prefix.mpr hsuf
    rwa [List.reverse_reverse] at h1
  have h1 := dropWhile_eq_self_of_prefix hpre hAdrop
  rw [h1, List.reverse_reverse, dropWhile_dropWhile]

theorem jsTrimStr_mk (l : List Char) : jsTrimStr (String.mk l) = String.mk (jsTrimL l) :=
  rfl

theorem jsTrimStr_htmlToText (s : String) : jsTrimStr (htmlToText s) = htmlToText s := by
  unfold htmlToText
  by_cases hs : s = ""
  · rw [if_pos hs]
    rfl
  · rw [if_neg hs]
    have hidem : jsTrimL (htmlToTextL s.data) = htmlToTextL s.data := by
      unfold htmlToTextL
      exact jsTrimL_idem _
    rw [jsTrimStr_mk, hidem]

/-! ## Previous-user-message lookup: specification equivalence -/

/-- The claim's description of the lookup: scan backward from the current
index and return the first `end_user` message with a non-empty trimmed
body. -/
def prevUserSpec (messages : List Msg) (idx : Nat) : String :=
  match (messages.take idx).reverse.find?
      (fun m => m.author_type == "user" && jsTrimStr m.body_text != "") with
  | some m => m.body_text
  | none => ""

theorem findPrevAux_eq_spec (messages : List Msg) :
    ∀ idx, findPrevAux messages idx = prevUserSpec messages idx := by
  intro idx
  induction idx with
  | zero => rfl
  | succ j ih =>
    rw [findPrevAux]
    cases hj : messages[j]? with
    | none =>
      have hlen : messages.length ≤ j := List.getElem?_eq_none_iff.mp hj
      rw [ih]
      unfold prevUserSpec
      rw [List.take_of_length_le hlen, List.take_of_length_le (Nat.le_succ_of_le hlen)]
    | some m =>
      have htake : messages.take (j + 1) = messages.take j ++ [m] := by
        rw [List.take_succ, hj]
        rfl
      unfold prevUserSpec
      rw [htake, List.reverse_append]
      simp only [List.reverse_cons, List.reverse_nil, List.nil_append,
        List.singleton_append, List.find?]
      by_cases hp : m.author_type = "user" ∧ jsTrimStr m.body_text ≠ ""
      · have hb : (m.author_type == "user" && jsTrimStr m.body_text != "") = true := by
          simp [hp.1, hp.2]
        rw [if_pos hp, hb]
      · have hb : (m.author_type == "user" && jsTrimStr m.body_text != "") = false := by
          rcases not_and_or.mp hp with h | h
          · simp [h]
          · simp only [ne_eq, not_not] at h
            simp [h]
        rw [if_neg hp, hb, ih]
        rfl

/-! ## Concrete scenario conversations -/

/-- Claim C8's scenario: one operator-authored source at ts 100 with body
`<p>Hi</p>`, no parts. -/
def srcC8 : MsgObj :=
  { id := some "src_1", created_at := some 100, authorType := some "admin",
    authorId := some "adm_9", authorName := some "Ann", body := some "<p>Hi</p>" }

def convC8 : Conversation := { source := some srcC8 }

/-- Claim C7's scenario messages: `user:"A"`, `operator:"B"`, `user:""`,
`operator:"C"`, in timestamp order. -/
def objUserA : MsgObj :=
  { id := some "p0", created_at := some 10, authorType := some "user",
    authorId := some "u1", body := some "A" }

def objOperB : MsgObj :=
  { id := some "p1", created_at := some 20, authorType := some "admin",
    authorId := some "a1", body := some "B" }

def objUserEmpty : MsgObj :=
  { id := some "p2", created_at := some 30, authorType := some "user",
    authorId := some "u1", body := some "" }

def objOperC : MsgObj :=
  { id := some "p3", created_at := some 40, authorType := some "admin",
    authorId := some "a1", body := some "C" }

def convC7 : Conversation :=
  { source := some objUserA, parts := [objOperB, objUserEmpty, objOperC] }

/-! ## Claim theorems -/

/-- Claim C7: the previous-user-message lookup scans backward from the given
index and returns the body of the first `end_user` ("user") message with a
non-empty trimmed body, and the empty value (persisted as an absent/null
field) when none exists; on the scenario
`[user:"A", operator:"B", user:"", operator:"C"]` the records for both
operator messages pair with `"A"` — the empty user message is skipped. -/
theorem claimC7 :
    (∀ (messages : List Msg) (idx : Nat),
      findPreviousUserMessage messages idx = prevUserSpec messages idx) ∧
    (∀ now : String,
      (rowsForConversation now "c7" convC7).map (fun r => r.user_prev_message) =
        [some "A", some "A"]) := by
  constructor
  · intro messages idx
    exact findPrevAux_eq_spec messages idx
  · intro now
    rfl

/-- Claim C8: for a conversation whose only message is an operator-authored
source at ts 100 with body `"<p>Hi</p>"` and no parts, `normalize` yields
exactly one message with role operator ("admin") and body `"Hi"`, and the
extractor emits exactly one Reply Record for it whose
preceding-end-user-message field is null. -/
theorem claimC8 (now : String) :
    buildOrderedMessages convC8 =
      [{ part_id := some "src_1", created_at := some 100,
         created_at_iso := "1970-01-01T00:01:40.000Z", author_type := "admin",
         author_id := "adm_9", author_name := "Ann", body_text := "Hi" }] ∧
    rowsForConversation now "C1" convC8 =
      [{ pulled_at := now, conversation_id := "C1", part_id := "src_1",
         reply_created_at := some "1970-01-01T00:01:40.000Z",
         teammate_id := some "adm_9", teammate_name := some "Ann",
         tags := none, assignee_id := none,
         user_prev_message := none, agent_reply := some "Hi" }] := by
  exact ⟨by decide, rfl⟩

/-- Claim C9: the HTML-to-text conversion is pure and total — it is a total
computable function of the input string alone, embedded as the fixed rule
pipeline of the source (block tags to newline, tag stripping, the six
entity decodes, whitespace collapsing, trim).  Empty and absent bodies
yield `""`, and every output is already trimmed (the final rule). -/
theorem claimC9 :
    htmlToText "" = "" ∧
    (∀ (i : Option String) (c : Option Nat) (t a n : Option String),
      (normalizeMessage (MsgObj.mk i c t a n none)).body_text = "") ∧
    (∀ s : String, jsTrimStr (htmlToText s) = htmlToText s) := by
  refine ⟨rfl, fun i c t a n => rfl, jsTrimStr_htmlToText⟩

/-! ## Stability of the message sort -/

theorem filter_key_orderedInsert (k : Nat) (x : Msg) (l : List Msg) :
    (List.orderedInsert msgLE x l).filter (fun m => msgKey m == k) =
      (x :: l).filter (fun m => msgKey m == k) := by
  induction l with
  | nil => rfl
  | cons y ys ih =>
    by_cases h : msgLE x y
    · rw [List.orderedInsert, if_pos h]
    · rw [List.orderedInsert, if_neg h]
      have hlt : msgKey y < msgKey x := Nat.lt_of_not_le h
      by_cases hx : msgKey x = k
      · have hy : ¬ msgKey y = k := by omega
        simp [List.filter_cons, beq_iff_eq, hx, hy, ih]
      · simp [List.filter_cons, beq_iff_eq, hx, ih]

theorem filter_key_insertionSort (k : Nat) (l : List Msg) :
    (List.insertionSort msgLE l).filter (fun m => msgKey m == k) =
      l.filter (fun m => msgKey m == k) := by
  induction l with
  | nil => rfl
  | cons x xs ih =>
    rw [List.insertionSort, filter_key_orderedInsert]
    simp only [List.filter_cons, ih]

/-- Claim C6's synthetic case: a part whose timestamp (50) precedes the
source's (100). -/
def srcLate : MsgObj :=
  { id := some "s1", created_at := some 100, authorType := some "admin",
    authorId := some "a1", body := some "late source" }

def partEarly : MsgObj :=
  { id := some "q1", created_at := some 50, authorType := some "user",
    authorId := some "u1", body := some "early part" }

def convC6 : Conversation := { source := some srcLate, parts := [partEarly] }

/-- Claim C6: normalization produces one message for the source plus one per
follow-up part and sorts them stably by `(created_at || 0)` ascending:
the output is sorted, is a permutation of the upstream emission order
(for every timestamp key, the equal-key messages appear exactly in
emission order, source first), and on a synthetic conversation whose part
precedes the source timestamp the source lands at its true position, not
first. -/
theorem claimC6 :
    (∀ conv : Conversation,
      List.Sorted msgLE (buildOrderedMessages conv) ∧
      (buildOrderedMessages conv).length = (rawMessages conv).length ∧
      (∀ k : Nat, (buildOrderedMessages conv).filter (fun m => msgKey m == k) =
        (rawMessages conv).filter (fun m => msgKey m == k))) ∧
    buildOrderedMessages convC6 = [normalizeMessage partEarly, normalizeMessage srcLate] := by
  constructor
  · intro conv
    unfold buildOrderedMessages
    exact ⟨List.sorted_insertionSort (r := msgLE) (rawMessages conv),
      (List.perm_insertionSort msgLE _).length_eq,
      fun k => filter_key_insertionSort k (rawMessages conv)⟩
  · decide

/-! ## The `part_id` natural key invariant -/

theorem truthyOptStr_ne_some_empty (o : Option String) : truthyOptStr o ≠ some "" := by
  cases o with
  | none => simp [truthyOptStr]
  | some s =>
    simp only [truthyOptStr, truthyStr]
    split
    · simp
    · rename_i hs
      simp [hs]

theorem normalizeMessage_part_id (obj : MsgObj) :
    (normalizeMessage obj).part_id = truthyOptStr obj.id := rfl

theorem mem_rawMessages_part_id {conv : Conversation} {m : Msg}
    (hm : m ∈ rawMessages conv) : m.part_id ≠ some "" := by
  unfold rawMessages at hm
  rw [List.mem_append] at hm
  rcases hm with hm | hm
  · cases hsrc : conv.source with
    | none => rw [hsrc] at hm; simp at hm
    | some s =>
      rw [hsrc] at hm
      simp only [List.mem_singleton] at hm
      subst hm
      rw [normalizeMessage_part_id]
      exact truthyOptStr_ne_some_empty _
  · rw [List.mem_map] at hm
    obtain ⟨obj, _, rfl⟩ := hm
    rw [normalizeMessage_part_id]
    exact truthyOptStr_ne_some_empty _

theorem mem_buildOrderedMessages_part_id {conv : Conversation} {m : Msg}
    (hm : m ∈ buildOrderedMessages conv) : m.part_id ≠ some "" := by
  unfold buildOrderedMessages at hm
  exact mem_rawMessages_part_id ((List.mem_insertionSort msgLE).mp hm)

theorem syntheticId_ne_empty (cid : String) (m : Msg) (i : Nat) :
    syntheticId cid m i ≠ "" := by
  intro h
  have hlen := congrArg String.length h
  rw [syntheticId] at hlen
  rw [String.length_append, String.length_append, String.length_append] at hlen
  rw [show "source_admin_".length = 13 from rfl, show "_".length = 1 from rfl,
    show "".length = 0 from rfl] at hlen
  omega

theorem mkRow_part_id_ne_empty (now cid tg ag : String) (all : List Msg) (i : Nat)
    (m : Msg) (hm : m.part_id ≠ some "") :
    (mkRow now cid tg ag all i m).part_id ≠ "" := by
  show (match m.part_id with
        | some s => s
        | none => syntheticId cid m i) ≠ ""
  cases hp : m.part_id with
  | none => exact syntheticId_ne_empty cid m i
  | some s =>
    intro hs
    subst hs
    exact hm hp

theorem replyRows_part_id_ne_empty (now cid tg ag : String) (all : List Msg) :
    ∀ (ms : List Msg) (i : Nat), (∀ m ∈ ms, m.part_id ≠ some "") →
      ∀ r ∈ replyRows now cid tg ag all i ms, r.part_id ≠ "" := by
  intro ms
  induction ms with
  | nil =>
    intro i _ r hr
    rw [show replyRows now cid tg ag all i [] = ([] : List Row) from rfl] at hr
    exact absurd hr (List.not_mem_nil r)
  | cons m rest ih =>
    intro i hms r hr
    rw [show replyRows now cid tg ag all i (m :: rest) =
        (if m.author_type = "admin" ∧ jsTrimStr m.body_text ≠ "" then
          mkRow now cid tg ag all i m :: replyRows now cid tg ag all (i + 1) rest
        else replyRows now cid tg ag all (i + 1) rest) from rfl] at hr
    split at hr
    · rcases List.mem_cons.mp hr with hr | hr
      · subst hr
        exact mkRow_part_id_ne_empty now cid tg ag all i m (hms m (List.mem_cons_self m rest))
      · exact ih (i + 1) (fun x hx => hms x (List.mem_cons_of_mem m hx)) r hr
    · exact ih (i + 1) (fun x hx => hms x (List.mem_cons_of_mem m hx)) r hr

/-- Claim C10's scenario: an operator-authored source with no upstream id. -/
def srcC10 : MsgObj :=
  { created_at := some 100, authorType := some "admin", body := some "Hi" }

def convC10 : Conversation := { source := some srcC10 }

/-- Claim C10: every emitted Reply Record carries a non-empty `part_id`
(the natural key); the shared per-conversation extraction used by both the
Backfill and Live loops substitutes the synthetic key
`source_admin_<conversationId>_<createdAt-or-index>` when the operator
message has no upstream id, as the second conjunct exhibits concretely. -/
theorem claimC10 :
    (∀ (now cid : String) (conv : Conversation) (r : Row),
      r ∈ rowsForConversation now cid conv → r.part_id ≠ "") ∧
    (∀ now : String, rowsForConversation now "c10" convC10 =
      [{ pulled_at := now, conversation_id := "c10", part_id := "source_admin_c10_100",
         reply_created_at := some "1970-01-01T00:01:40.000Z",
         teammate_id := none, teammate_name := none, tags := none, assignee_id := none,
         user_prev_message := none, agent_reply := some "Hi" }]) := by
  constructor
  · intro now cid conv r hr
    unfold rowsForConversation at hr
    exact replyRows_part_id_ne_empty now cid (extractTags conv) (extractAssigneeId conv)
      (buildOrderedMessages conv) (buildOrderedMessages conv) 0
      (fun m hm => mem_buildOrderedMessages_part_id hm) r hr
  · intro now
    rfl

/-- The concrete emitted row of claim C10's scenario. -/
def rowC10W : Row :=
  { pulled_at := "t", conversation_id := "c10", part_id := "source_admin_c10_100",
    reply_created_at := some "1970-01-01T00:01:40.000Z", teammate_id := none,
    teammate_name := none, tags := none, assignee_id := none,
    user_prev_message := none, agent_reply := some "Hi" }

/-- Witness for claim C10: a concrete emitted row has a non-empty key. -/
theorem claimC10_witness : rowC10W.part_id ≠ "" :=
  claimC10.1 "t" "c10" convC10 rowC10W (by decide)

/-! ## Idempotence of re-processing (claim C1) -/

/-- A row with its `pulled_at` capture timestamp erased. -/
def eraseRowTime (r : Row) : Row := { r with pulled_at := "" }

/-- A store with every row's `pulled_at` erased. -/
def eraseStorePulledAt (st : Store) : Store := fun k => (st k).map eraseRowTime

theorem eraseRowTime_part_id (r : Row) : (eraseRowTime r).part_id = r.part_id := rfl

theorem eraseRowTime_mkRow (t1 t2 cid tg ag : String) (all : List Msg) (i : Nat) (m : Msg) :
    eraseRowTime (mkRow t1 cid tg ag all i m) = eraseRowTime (mkRow t2 cid tg ag all i m) :=
  rfl

/-- The extracted rows depend on the wall clock only through `pulled_at`. -/
theorem replyRows_erase_time (t1 t2 cid tg ag : String) (all : List Msg) :
    ∀ (ms : List Msg) (i : Nat),
      (replyRows t1 cid tg ag all i ms).map eraseRowTime =
        (replyRows t2 cid tg ag all i ms).map eraseRowTime := by
  intro ms
  induction ms with
  | nil => intro i; rfl
  | cons m rest ih =>
    intro i
    rw [show replyRows t1 cid tg ag all i (m :: rest) =
        (if m.author_type = "admin" ∧ jsTrimStr m.body_text ≠ "" then
          mkRow t1 cid tg ag all i m :: replyRows t1 cid tg ag all (i + 1) rest
        else replyRows t1 cid tg ag all (i + 1) rest) from rfl]
    rw [show replyRows t2 cid tg ag all i (m :: rest) =
        (if m.author_type = "admin" ∧ jsTrimStr m.body_text ≠ "" then
          mkRow t2 cid tg ag all i m :: replyRows t2 cid tg ag all (i + 1) rest
        else replyRows t2 cid tg ag all (i + 1) rest) from rfl]
    split
    · rw [List.map_cons, List.map_cons, ih (i + 1), eraseRowTime_mkRow t1 t2]
    · exact ih (i + 1)

theorem rowsForConversation_erase_time (t1 t2 cid : String) (conv : Conversation) :
    (rowsForConversation t1 cid conv).map eraseRowTime =
      (rowsForConversation t2 cid conv).map eraseRowTime := by
  unfold rowsForConversation
  exact replyRows_erase_time t1 t2 cid (extractTags conv) (extractAssigneeId conv)
    (buildOrderedMessages conv) (buildOrderedMessages conv) 0

/-- The last row of the batch carrying a given key — the row that wins the
upsert for that key. -/
def lastKeyed : List Row → String → Option Row
  | [], _ => none
  | r :: rs, k =>
    match lastKeyed rs k with
    | some r2 => some r2
    | none => if k = r.part_id then some r else none

theorem upsertAll_lookup : ∀ (rows : List Row) (st : Store) (k : String),
    upsertAll st rows k =
      (match lastKeyed rows k with
       | some r => some r
       | none => st k) := by
  intro rows
  induction rows with
  | nil => intro st k; rfl
  | cons r rs ih =>
    intro st k
    rw [show upsertAll st (r :: rs) = upsertAll (upsertRow st r) rs from rfl, ih]
    rw [show lastKeyed (r :: rs) k =
        (match lastKeyed rs k with
         | some r2 => some r2
         | none => if k = r.part_id then some r else none) from rfl]
    cases lastKeyed rs k with
    | some r2 => rfl
    | none =>
      show upsertRow st r k = _
      unfold upsertRow
      split
      · rfl
      · rfl

/-- Upserting the same batch twice is the same as upserting it once. -/
theorem upsertAll_same_idem (st : Store) (rows : List Row) :
    upsertAll (upsertAll st rows) rows = upsertAll st rows := by
  funext k
  rw [upsertAll_lookup rows, upsertAll_lookup rows]
  cases lastKeyed rows k with
  | some r => rfl
  | none => rfl

theorem lastKeyed_erase_congr :
    ∀ (l1 l2 : List Row) (k : String), l1.map eraseRowTime = l2.map eraseRowTime →
      (lastKeyed l1 k).map eraseRowTime = (lastKeyed l2 k).map eraseRowTime := by
  intro l1
  induction l1 with
  | nil =>
    intro l2 k h
    cases l2 with
    | nil => rfl
    | cons r2 t2 => simp at h
  | cons r1 t1 ih =>
    intro l2 k h
    cases l2 with
    | nil => simp at h
    | cons r2 t2 =>
      rw [List.map_cons, List.map_cons, List.cons.injEq] at h
      obtain ⟨hr, ht⟩ := h
      have hid : r1.part_id = r2.part_id := by
        have := congrArg Row.part_id hr
        simpa [eraseRowTime_part_id] using this
      have htails := ih t2 k ht
      rw [show lastKeyed (r1 :: t1) k =
          (match lastKeyed t1 k with
           | some a => some a
           | none => if k = r1.part_id then some r1 else none) from rfl]
      rw [show lastKeyed (r2 :: t2) k =
          (match lastKeyed t2 k with
           | some a => some a
           | none => if k = r2.part_id then some r2 else none) from rfl]
      cases h1 : lastKeyed t1 k with
      | some a =>
        cases h2 : lastKeyed t2 k with
        | some b =>
          rw [h1, h2] at htails
          simpa using htails
        | none =>
          rw [h1, h2] at htails
          simp at htails
      | none =>
        cases h2 : lastKeyed t2 k with
        | some b =>
          rw [h1, h2] at htails
          simp at htails
        | none =>
          by_cases hk : k = r1.part_id
          · rw [if_pos hk, if_pos (hid ▸ hk)]
            simpa using hr
          · rw [if_neg hk, if_neg (hid ▸ hk)]

/-- Upserting a re-derivation of the same batch (differing only in
`pulled_at`) changes the store only in `pulled_at`. -/
theorem upsertAll_erase_congr (st : Store) (l1 l2 : List Row)
    (h : l1.map eraseRowTime = l2.map eraseRowTime) :
    eraseStorePulledAt (upsertAll (upsertAll st l1) l2) =
      eraseStorePulledAt (upsertAll st l1) := by
  funext k
  show (upsertAll (upsertAll st l1) l2 k).map eraseRowTime =
    (upsertAll st l1 k).map eraseRowTime
  have hc := lastKeyed_erase_congr l1 l2 k h
  rw [upsertAll_lookup l2, upsertAll_lookup l1]
  cases h1 : lastKeyed l1 k with
  | some a =>
    cases h2 : lastKeyed l2 k with
    | some b =>
      rw [h1, h2] at hc
      exact hc.symm
    | none => rfl
  | none =>
    cases h2 : lastKeyed l2 k with
    | some b =>
      rw [h1, h2] at hc
      exact absurd hc (by simp)
    | none => rfl

/-! ## Retry exhaustion (claim C5) -/

theorem retryable_not_ok {code : Nat} (h : retryableStatus code = true) :
    okStatus code = false := by
  unfold retryableStatus at h
  unfold okStatus
  rw [Bool.or_eq_true, beq_iff_eq, Bool.and_eq_true, decide_eq_true_eq,
    decide_eq_true_eq] at h
  have : ¬(200 ≤ code ∧ code < 300) := by omega
  simpa using this

theorem intercomRequestGo_retryable {α : Type} :
    ∀ (n : Nat) (resps : List (HttpResp α)),
      (∀ r ∈ resps, retryableStatus r.status = true) →
      intercomRequestGo n resps = none := by
  intro n
  induction n with
  | zero => intro resps _; rfl
  | succ n ih =>
    intro resps hr
    cases resps with
    | nil => rfl
    | cons r rest =>
      have h1 : retryableStatus r.status = true := hr r (List.mem_cons_self r rest)
      have h2 : okStatus r.status = false := retryable_not_ok h1
      rw [show intercomRequestGo (n + 1) (r :: rest) =
          (if okStatus r.status then r.parsed
           else if retryableStatus r.status then intercomRequestGo n rest
           else none) from rfl]
      rw [h1, h2]
      simp only [Bool.false_eq_true, if_false, if_true]
      exact ih rest (fun x hx => hr x (List.mem_cons_of_mem r hx))

/-- The per-conversation loop ignores a summary once the caps are hit, so
skipping never depends on the rest of the page. -/
theorem bfProcessConvos_cap (d : String → Option Conversation) (now : String)
    (cs : List ConvSummary) (p t : Nat) (rows : List Row)
    (h : MAX_CONVERSATIONS_PER_RUN ≤ p ∨ MAX_ROWS_INSERT_PER_RUN ≤ t + rows.length) :
    bfProcessConvos d now cs p t rows = (p, rows) := by
  cases cs with
  | nil => rfl
  | cons c cs2 =>
    rw [show bfProcessConvos d now (c :: cs2) p t rows =
        (if MAX_CONVERSATIONS_PER_RUN ≤ p then (p, rows)
         else if MAX_ROWS_INSERT_PER_RUN ≤ t + rows.length then (p, rows)
         else
           match truthyOptStr c.id with
           | none => bfProcessConvos d now cs2 p t rows
           | some convoId =>
             match d convoId with
             | none => bfProcessConvos d now cs2 p t rows
             | some full =>
               bfProcessConvos d now cs2 (p + 1) t
                 (rows ++ rowsForConversation now convoId full)) from rfl]
    rcases h with h | h
    · rw [if_pos h]
    · by_cases h1 : MAX_CONVERSATIONS_PER_RUN ≤ p
      · rw [if_pos h1]
      · rw [if_neg h1, if_pos h]

/-- Claim C5: a search/detail call whose every attempt (up to the cap of 6)
draws a retryable status (429 or 5xx) returns `none` — a non-fatal miss,
not a thrown error; a non-retryable non-2xx response likewise returns
`none` immediately; and the conversation loop skips an item whose detail
call misses this way and continues with the remaining summaries
unchanged. -/
theorem claimC5 :
    (∀ (α : Type) (responses : List (HttpResp α)),
      (∀ r ∈ responses, retryableStatus r.status = true) →
      intercomRequest responses = none) ∧
    (∀ (α : Type) (r : HttpResp α) (rest : List (HttpResp α)),
      okStatus r.status = false → retryableStatus r.status = false →
      intercomRequest (r :: rest) = none) ∧
    (∀ (env : ApiEnv) (now : String) (c : ConvSummary) (cs : List ConvSummary)
      (cid : String) (processed totalRows : Nat) (rows : List Row),
      truthyOptStr c.id = some cid →
      (∀ r ∈ env.detailTraces cid, retryableStatus r.status = true) →
      bfProcessConvos (mkDetail env) now (c :: cs) processed totalRows rows =
        bfProcessConvos (mkDetail env) now cs processed totalRows rows) := by
  refine ⟨?_, ?_, ?_⟩
  · intro α responses h
    exact intercomRequestGo_retryable MAX_ATTEMPTS responses h
  · intro α r rest hok hret
    rw [show intercomRequest (r :: rest) =
        (if okStatus r.status then r.parsed
         else if retryableStatus r.status then intercomRequestGo 5 rest
         else none) from rfl]
    rw [hok, hret]
    simp
  · intro env now c cs cid p t rows hc hdet
    have hnone : mkDetail env cid = none :=
      intercomRequestGo_retryable MAX_ATTEMPTS _ hdet
    rw [show bfProcessConvos (mkDetail env) now (c :: cs) p t rows =
        (if MAX_CONVERSATIONS_PER_RUN ≤ p then (p, rows)
         else if MAX_ROWS_INSERT_PER_RUN ≤ t + rows.length then (p, rows)
         else
           match truthyOptStr c.id with
           | none => bfProcessConvos (mkDetail env) now cs p t rows
           | some convoId =>
             match mkDetail env convoId with
             | none => bfProcessConvos (mkDetail env) now cs p t rows
             | some full =>
               bfProcessConvos (mkDetail env) now cs (p + 1) t
                 (rows ++ rowsForConversation now convoId full)) from rfl]
    rw [hc]
    by_cases h1 : MAX_CONVERSATIONS_PER_RUN ≤ p
    · rw [if_pos h1, bfProcessConvos_cap (mkDetail env) now cs p t rows (Or.inl h1)]
    · by_cases h2 : MAX_ROWS_INSERT_PER_RUN ≤ t + rows.length
      · rw [if_neg h1, if_pos h2,
          bfProcessConvos_cap (mkDetail env) now cs p t rows (Or.inr h2)]
      · rw [if_neg h1, if_neg h2]
        show (match mkDetail env cid with
              | none => bfProcessConvos (mkDetail env) now cs p t rows
              | some full =>
                bfProcessConvos (mkDetail env) now cs (p + 1) t
                  (rows ++ rowsForConversation now cid full)) =
            bfProcessConvos (mkDetail env) now cs p t rows
        rw [hnone]

def envC5 : ApiEnv := { detailTraces := fun _ => List.replicate 6 { status := 429 } }

def cSumC5 : ConvSummary := { id := some "cid1" }

/-- Witness for claim C5 at concrete inputs: six 429s exhaust the retry
budget and miss; a 403 misses at once; the loop drops the summary whose
detail misses. -/
theorem claimC5_witness :
    intercomRequest (List.replicate 6 ({ status := 429 } : HttpResp Conversation)) = none ∧
    intercomRequest [({ status := 403 } : HttpResp SearchPage)] = none ∧
    bfProcessConvos (mkDetail envC5) "t" [cSumC5] 0 0 [] =
      bfProcessConvos (mkDetail envC5) "t" [] 0 0 [] := by
  refine ⟨claimC5.1 Conversation _ (by decide),
    claimC5.2.1 SearchPage _ _ (by decide) (by decide),
    claimC5.2.2 envC5 "t" cSumC5 [] "cid1" 0 0 [] (by decide) (by decide)⟩

/-! ## Run-level lemmas for the state machine -/

theorem initBackfill_noop {st : SyncState} {s e : Int} (h1 : st.bfStart = some s)
    (h2 : st.bfEnd = some e) (sun nowMs : Int) :
    initBackfillIfNeeded sun nowMs st = st := by
  unfold initBackfillIfNeeded
  rw [h1, h2]

theorem runBackfillOnce_done {st : SyncState} {s e : Int} (env : ApiEnv)
    (sun nowMs : Int) (nowP : String) (store : Store) (h1 : st.bfStart = some s)
    (h2 : st.bfEnd = some e) (hd : isTrueStr st.bfDone = true) :
    runBackfillOnce env sun nowMs nowP st store = (st, store, .ok ⟨true, 0, 0, 0⟩) := by
  unfold runBackfillOnce
  rw [initBackfill_noop h1 h2]
  simp [hd]

theorem runBackfillOnce_notDone {st : SyncState} {s e : Int} (env : ApiEnv)
    (sun nowMs : Int) (nowP : String) (store : Store) (h1 : st.bfStart = some s)
    (h2 : st.bfEnd = some e) (h3 : isTrueStr st.bfDone = false) :
    runBackfillOnce env sun nowMs nowP st store =
      runBackfillPages (mkDetail env) env.sinkErr nowP
        (env.bfSearchTraces.map intercomRequest) (truthyStr st.bfCursor) 0 0 0 st store := by
  unfold runBackfillOnce
  rw [initBackfill_noop h1 h2]
  simp only [h3, Bool.false_eq_true, if_false, h1, h2]

/-- A backfill iteration that receives an empty page persists
`bf_done = "true"`, clears the cursor, and returns done. -/
theorem runBackfillPages_empty_first (d : String → Option Conversation)
    (sk : List Row → Option String) (nowP : String) (ps : List (Option SearchPage))
    (cursor : Option String) (st : SyncState) (store : Store) (pg : SearchPage)
    (h6 : pg.conversations = []) :
    runBackfillPages d sk nowP (some pg :: ps) cursor 0 0 0 st store =
      ({ st with bfDone := "true", bfCursor := "" }, store, .ok ⟨true, 0, 0, 0⟩) := by
  cases pg with
  | mk convs nc =>
    change convs = [] at h6
    subst h6
    rfl

/-- A backfill iteration whose page batch fails to upsert propagates the
error and leaves the state exactly as at the iteration's entry: the
cursor write comes strictly after the upsert. -/
theorem runBackfillPages_sink_fail (d : String → Option Conversation)
    (sk : List Row → Option String) (nowP : String) (ps : List (Option SearchPage))
    (cursor : Option String) (st : SyncState) (store : Store) (pg : SearchPage)
    (p2 : Nat) (R : List Row) (emsg : String)
    (h6 : pg.conversations ≠ [])
    (h7 : bfProcessConvos d nowP pg.conversations 0 0 [] = (p2, R))
    (h8 : R ≠ [])
    (h9 : sk R = some emsg) :
    runBackfillPages d sk nowP (some pg :: ps) cursor 0 0 0 st store =
      (st, store, .fail emsg) := by
  have hne : pg.conversations.isEmpty = false := by
    cases hcv : pg.conversations
    · exact absurd hcv h6
    · rfl
  have hRne : R.isEmpty = false := by
    cases hR : R
    · exact absurd hR h8
    · rfl
  simp only [runBackfillPages]
  rw [if_pos (by decide : 0 < MAX_CONVERSATIONS_PER_RUN ∧ 0 < MAX_ROWS_INSERT_PER_RUN)]
  simp only [hne, Bool.false_eq_true, if_false, h7, hRne, h9]

theorem autoSwitch_on {st : SyncState} {e : Int} (nowMs : Int)
    (hd : isTrueStr st.bfDone = true) (h4 : st.liveLastRun = none)
    (h2 : st.bfEnd = some e) :
    autoSwitchToLiveIfBackfillDone nowMs st =
      { st with liveLastRun := some e, liveCursor := "" } := by
  unfold autoSwitchToLiveIfBackfillDone
  rw [hd, h4, h2]
  simp

theorem autoSwitch_already {st : SyncState} {x : Int} (nowMs : Int)
    (h : st.liveLastRun = some x) :
    autoSwitchToLiveIfBackfillDone nowMs st = st := by
  unfold autoSwitchToLiveIfBackfillDone
  rw [h]
  split <;> rfl

/-- Persisting completion: `bf_done := "true"`, cursor cleared. -/
def markBfDone (st : SyncState) : SyncState := { st with bfDone := "true", bfCursor := "" }

/-- Seeding the Live window: `live_last_run := e`, live cursor cleared. -/
def seedLive (e : Int) (st : SyncState) : SyncState :=
  { st with liveLastRun := some e, liveCursor := "" }

/-- Claim C3: a Backfill run that receives an empty page immediately
persists `completion = "true"` and clears the pagination cursor (store
untouched); the auto-switch then seeds the Live window anchor
`live_last_run` with exactly the Backfill window's end; the transition
happens only once (a further auto-switch is the identity); and any
subsequent run starts in LIVE: its backfill pass returns immediately with
no state, store, or upstream interaction. -/
theorem claimC3 (env : ApiEnv) (sundayStartMs nowMs now2 : Int) (nowP : String)
    (st : SyncState) (store : Store) (s e : Int) (pg : SearchPage)
    (ps : List (Option SearchPage))
    (h1 : st.bfStart = some s) (h2 : st.bfEnd = some e)
    (h3 : isTrueStr st.bfDone = false) (h4 : st.liveLastRun = none)
    (h5 : env.bfSearchTraces.map intercomRequest = some pg :: ps)
    (h6 : pg.conversations = []) :
    runBackfillOnce env sundayStartMs nowMs nowP st store =
      (markBfDone st, store, .ok ⟨true, 0, 0, 0⟩) ∧
    autoSwitchToLiveIfBackfillDone now2 (markBfDone st) = seedLive e (markBfDone st) ∧
    (∀ now3 : Int, autoSwitchToLiveIfBackfillDone now3 (seedLive e (markBfDone st)) =
      seedLive e (markBfDone st)) ∧
    (∀ (env2 : ApiEnv) (sun2 nowMs2 : Int) (nowP2 : String) (store2 : Store),
      runBackfillOnce env2 sun2 nowMs2 nowP2 (seedLive e (markBfDone st)) store2 =
        (seedLive e (markBfDone st), store2, .ok ⟨true, 0, 0, 0⟩)) := by
  refine ⟨?_, ?_, ?_, ?_⟩
  · rw [runBackfillOnce_notDone env sundayStartMs nowMs nowP store h1 h2 h3, h5]
    exact runBackfillPages_empty_first _ _ _ _ _ _ _ _ h6
  · exact autoSwitch_on now2 (by rfl) h4 h2
  · intro now3
    exact autoSwitch_already now3 rfl
  · intro env2 sun2 nowMs2 nowP2 store2
    exact runBackfillOnce_done env2 sun2 nowMs2 nowP2 store2 h1 h2 (by rfl)

def pageEmptyC3 : SearchPage := { conversations := [], nextCursor := none }

def envC3 : ApiEnv :=
  { bfSearchTraces := [[{ status := 200, parsed := some pageEmptyC3 }]] }

def stC3 : SyncState :=
  { bfStart := some 0, bfEnd := some 604800000, bfCursor := "", bfDone := "false" }

/-- Witness for claim C3 at a concrete initialized not-yet-done state whose
first backfill search returns an empty page. -/
theorem claimC3_witness :
    runBackfillOnce envC3 0 604800000 "t" stC3 emptyStore =
      (markBfDone stC3, emptyStore, .ok ⟨true, 0, 0, 0⟩) ∧
    autoSwitchToLiveIfBackfillDone 604800500 (markBfDone stC3) =
      seedLive 604800000 (markBfDone stC3) := by
  have h := claimC3 envC3 0 604800000 604800500 "t" stC3 emptyStore 0 604800000
    pageEmptyC3 [] (by decide) (by decide) (by decide) (by decide) (by decide) (by decide)
  exact ⟨h.1, h.2.1⟩

/-- Claim C4: when the upsert of a page's accumulated batch fails, the error
propagates, the run and the whole process fail (exit code 1), and the
persisted state — in particular the pagination cursor for that page — is
exactly what it was when the page was entered, so the next run retries
the same page. -/
theorem claimC4 (env : ApiEnv) (sun nowMs liveNow : Int) (nowP : String)
    (st : SyncState) (store : Store) (s e : Int) (pg : SearchPage)
    (ps : List (Option SearchPage)) (p2 : Nat) (R : List Row) (emsg : String)
    (h1 : st.bfStart = some s) (h2 : st.bfEnd = some e)
    (h3 : isTrueStr st.bfDone = false)
    (h5 : env.bfSearchTraces.map intercomRequest = some pg :: ps)
    (h6 : pg.conversations ≠ [])
    (h7 : bfProcessConvos (mkDetail env) nowP pg.conversations 0 0 [] = (p2, R))
    (h8 : R ≠ [])
    (h9 : env.sinkErr R = some emsg) :
    runBackfillOnce env sun nowMs nowP st store = (st, store, .fail emsg) ∧
    mainRun env sun nowMs liveNow nowP st store = (st, store, .fail emsg) ∧
    mainExitCode env sun nowMs liveNow nowP st store = 1 := by
  have hbf : runBackfillOnce env sun nowMs nowP st store = (st, store, .fail emsg) := by
    rw [runBackfillOnce_notDone env sun nowMs nowP store h1 h2 h3, h5]
    exact runBackfillPages_sink_fail _ _ _ _ _ _ _ _ _ _ _ h6 h7 h8 h9
  have hmain : mainRun env sun nowMs liveNow nowP st store = (st, store, .fail emsg) := by
    unfold mainRun
    rw [hbf]
  refine ⟨hbf, hmain, ?_⟩
  unfold mainExitCode
  rw [hmain]

def pageC4 : SearchPage := { conversations := [{ id := some "cv1" }], nextCursor := none }

def envC4 : ApiEnv :=
  { bfSearchTraces := [[{ status := 200, parsed := some pageC4 }]],
    detailTraces := fun _ => [{ status := 200, parsed := some convC8 }],
    sinkErr := fun rows => if rows.isEmpty then none else some "upsert failed" }

def stC4 : SyncState :=
  { bfStart := some 0, bfEnd := some 1000, bfCursor := "", bfDone := "false" }

/-- Witness for claim C4 at a concrete run whose single-conversation page
batch is refused by the sink. -/
theorem claimC4_witness :
    runBackfillOnce envC4 0 1000 "t" stC4 emptyStore =
      (stC4, emptyStore, .fail "upsert failed") ∧
    mainExitCode envC4 0 1000 2000 "t" stC4 emptyStore = 1 := by
  have h := claimC4 envC4 0 1000 2000 "t" stC4 emptyStore 0 1000 pageC4 []
    (bfProcessConvos (mkDetail envC4) "t" pageC4.conversations 0 0 []).1
    (bfProcessConvos (mkDetail envC4) "t" pageC4.conversations 0 0 []).2
    "upsert failed" (by decide) (by decide) (by decide) (by decide) (by decide)
    rfl (by decide) (by decide)
  exact ⟨h.1, h.2.2⟩

/-! ## Live windows across runs (claim C2) -/

/-- Every normal completion of the live pagination loop reports exactly the
window it searched. -/
theorem runLivePages_window (d : String → Option Conversation)
    (sk : List Row → Option String) (nowP : String) (su eu nowMs : Int) :
    ∀ (pages : List (Option SearchPage)) (cursor : Option String) (p t pgn : Nat)
      (st : SyncState) (store : Store) (res : LiveResult),
      (runLivePages d sk nowP su eu nowMs pages cursor p t pgn st store).2.2 = .ok res →
      res.startUnix = su ∧ res.endUnix = eu := by
  intro pages
  induction pages with
  | nil =>
    intro cursor p t pgn st store res h
    simp only [runLivePages] at h
    cases h
    exact ⟨rfl, rfl⟩
  | cons optPage rest ih =>
    intro cursor p t pgn st store res h
    simp only [runLivePages] at h
    split at h
    · split at h
      · cases h
        exact ⟨rfl, rfl⟩
      · split at h
        · exact absurd h (by simp)
        · split at h
          · cases h
            exact ⟨rfl, rfl⟩
          · exact ih _ _ _ _ _ _ _ h
    · cases h
      exact ⟨rfl, rfl⟩

/-- A live run either leaves `live_last_run` untouched or advances it to
exactly its own window end (`now`). -/
theorem runLivePages_lastRun (d : String → Option Conversation)
    (sk : List Row → Option String) (nowP : String) (su eu nowMs : Int) :
    ∀ (pages : List (Option SearchPage)) (cursor : Option String) (p t pgn : Nat)
      (st : SyncState) (store : Store),
      (runLivePages d sk nowP su eu nowMs pages cursor p t pgn st store).1.liveLastRun =
          st.liveLastRun ∨
        (runLivePages d sk nowP su eu nowMs pages cursor p t pgn st store).1.liveLastRun =
          some nowMs := by
  intro pages
  induction pages with
  | nil => intro cursor p t pgn st store; exact Or.inl rfl
  | cons optPage rest ih =>
    intro cursor p t pgn st store
    simp only [runLivePages]
    split
    · split
      · exact Or.inr rfl
      · split
        · exact Or.inl rfl
        · split
          · exact Or.inr rfl
          · exact ih _ _ _ _ _ _
    · exact Or.inl rfl

theorem liveStartUnix_eq (lastRunMs : Int) :
    liveStartUnix lastRunMs = unixOfMs lastRunMs - 1800 := by
  unfold liveStartUnix unixOfMs LIVE_LOOKBACK_MINUTES
  rw [Int.fdiv_eq_ediv _ (by decide), Int.fdiv_eq_ediv _ (by decide)]
  rw [show lastRunMs - ((30 : Nat) : Int) * 60 * 1000 = lastRunMs + -1800 * 1000 by
    push_cast
    ring]
  rw [Int.add_mul_ediv_right _ _ (by decide : (1000 : Int) ≠ 0)]
  omega

/-- Claim C2 (amended): a live run whose persisted anchor (the previous
run's persisted window end) is `lastRun` observes a search window starting
exactly `lastRun − 30min` — thirty minutes BEFORE the previous persisted
end, not at or after it — and ending at its own `now`, which is what it
persists as the new anchor when it completes the window. -/
theorem claimC2_amended (env : ApiEnv) (nowMs : Int) (nowP : String) (st : SyncState)
    (store : Store) (lastRunMs : Int) (h : st.liveLastRun = some lastRunMs) :
    (∀ res, (runLiveOnce env nowMs nowP st store).2.2 = .ok res →
      res.startUnix = unixOfMs lastRunMs - 1800 ∧ res.endUnix = unixOfMs nowMs) ∧
    ((runLiveOnce env nowMs nowP st store).1.liveLastRun = st.liveLastRun ∨
      (runLiveOnce env nowMs nowP st store).1.liveLastRun = some nowMs) := by
  have hrun : runLiveOnce env nowMs nowP st store =
      runLivePages (mkDetail env) env.sinkErr nowP (liveStartUnix lastRunMs)
        (unixOfMs nowMs) nowMs (env.liveSearchTraces.map intercomRequest)
        (truthyStr st.liveCursor) 0 0 0 st store := by
    unfold runLiveOnce
    rw [h]
  rw [hrun]
  constructor
  · intro res hres
    have hw := runLivePages_window (mkDetail env) env.sinkErr nowP
      (liveStartUnix lastRunMs) (unixOfMs nowMs) nowMs
      (env.liveSearchTraces.map intercomRequest) (truthyStr st.liveCursor)
      0 0 0 st store res hres
    rw [liveStartUnix_eq] at hw
    exact hw
  · exact runLivePages_lastRun (mkDetail env) env.sinkErr nowP
      (liveStartUnix lastRunMs) (unixOfMs nowMs) nowMs
      (env.liveSearchTraces.map intercomRequest) (truthyStr st.liveCursor) 0 0 0 st store

def pageEmptyTrace : List (HttpResp SearchPage) :=
  [{ status := 200, parsed := some { conversations := [], nextCursor := none } }]

def envLiveEmpty : ApiEnv := { liveSearchTraces := [pageEmptyTrace] }

def stC2 : SyncState :=
  { bfStart := some 0, bfEnd := some 500, bfCursor := "", bfDone := "true",
    liveLastRun := some 1000000000000, liveCursor := "" }

/-- Counterexample to claim C2 as stated: the first run below completes its
window and persists `live_last_run = 1700000000000` (its window end,
1700000000 in unix seconds); the second run, started from exactly that
persisted state, observes a search-window start of 1699998200 — strictly
BEFORE the previous run's persisted window end (the 30-minute lookback),
falsifying "each run's observed window start ≥ the previous run's
persisted window end". -/
theorem claimC2_counterexample :
    (runLiveOnce envLiveEmpty 1700000000000 "t" stC2 emptyStore).1.liveLastRun =
      some 1700000000000 ∧
    (runLiveOnce envLiveEmpty 1700000000000 "t" stC2 emptyStore).2.2 =
      Outcome.ok ⟨true, 999998200, 1700000000, 0, 0, 0⟩ ∧
    (runLiveOnce envLiveEmpty 1700000100000 "t"
        (runLiveOnce envLiveEmpty 1700000000000 "t" stC2 emptyStore).1 emptyStore).2.2 =
      Outcome.ok ⟨true, 1699998200, 1700000100, 0, 0, 0⟩ ∧
    (1699998200 : Int) < 1700000000 := by
  exact ⟨by decide, by decide, by decide, by decide⟩

/-- Witness for claim C2's amended theorem at the concrete first run. -/
theorem claimC2_witness :
    ((999998200 : Int) = unixOfMs 1000000000000 - 1800 ∧
      (1700000000 : Int) = unixOfMs 1700000000000) ∧
    ((runLiveOnce envLiveEmpty 1700000000000 "t" stC2 emptyStore).1.liveLastRun =
        stC2.liveLastRun ∨
      (runLiveOnce envLiveEmpty 1700000000000 "t" stC2 emptyStore).1.liveLastRun =
        some 1700000000000) := by
  have h := claimC2_amended envLiveEmpty 1700000000000 "t" stC2 emptyStore
    1000000000000 (by decide)
  have h1 := h.1 ⟨true, 999998200, 1700000000, 0, 0, 0⟩ (by decide)
  exact ⟨h1, h.2⟩

/-- Counterexample to claim C1 as stated: the emitted Reply Record is not a
pure function of the conversation object alone — `pulled_at` records the
wall clock of the extraction — so re-deriving at a later instant is not
byte-identical and the doubly-upserted store differs from the
singly-upserted one at the record's key. -/
theorem claimC1_counterexample :
    rowsForConversation "2024-01-01T00:00:00.000Z" "C1" convC8 ≠
      rowsForConversation "2024-01-02T00:00:00.000Z" "C1" convC8 ∧
    upsertAll (upsertAll emptyStore
        (rowsForConversation "2024-01-01T00:00:00.000Z" "C1" convC8))
        (rowsForConversation "2024-01-02T00:00:00.000Z" "C1" convC8) "src_1" ≠
      upsertAll emptyStore
        (rowsForConversation "2024-01-01T00:00:00.000Z" "C1" convC8) "src_1" := by
  exact ⟨by decide, by decide⟩

/-- Claim C1 (amended): re-deriving the Reply Records for a fixed
conversation object is byte-identical in every field except the
`pulled_at` capture timestamp; upserting the same extraction twice yields
a store identical to upserting it once, and upserting a re-derivation
made at a different instant yields a store identical up to `pulled_at`. -/
theorem claimC1_amended (conv : Conversation) (cid t1 t2 : String) (st : Store) :
    (rowsForConversation t1 cid conv).map eraseRowTime =
      (rowsForConversation t2 cid conv).map eraseRowTime ∧
    upsertAll (upsertAll st (rowsForConversation t1 cid conv))
        (rowsForConversation t1 cid conv) =
      upsertAll st (rowsForConversation t1 cid conv) ∧
    eraseStorePulledAt (upsertAll (upsertAll st (rowsForConversation t1 cid conv))
        (rowsForConversation t2 cid conv)) =
      eraseStorePulledAt (upsertAll st (rowsForConversation t1 cid conv)) :=
  ⟨rowsForConversation_erase_time t1 t2 cid conv,
   upsertAll_same_idem st (rowsForConversation t1 cid conv),
   upsertAll_erase_congr st (rowsForConversation t1 cid conv)
     (rowsForConversation t2 cid conv) (rowsForConversation_erase_time t1 t2 cid conv)⟩
